import Mathlib

/-!
Verification of the pseudo-random permutation (`src/levanter/data/_prp.py`) and the
audio cache wrappers (`src/levanter/data/audio.py`) of the levanter repository.

The JAX PRNG (`jax.random`) is an external library; it is modelled abstractly as a
`PRNGImpl`: a key-splitting function and a bounded integer draw.  The well-formedness
predicate `PRNGImpl.InRange` records the documented contract of `jax.random.randint`:
the draw lies in `[lo, hi)` whenever `lo < hi`.  The `jax.lax.while_loop` used during
construction is modelled with explicit fuel counting loop iterations; `none` means the
loop did not exit within the given fuel.
-/

namespace Levanter

/-- Abstract model of the `jax.random` PRNG interface used by `Permutation.__init__`:
`split` derives two sub-keys, `randint k lo hi` draws an integer from a key. -/
structure PRNGImpl where
  split : Nat → Nat × Nat
  randint : Nat → Int → Int → Int

/-- Contract of `jax.random.randint`: whenever `lo < hi` the draw lies in `[lo, hi)`. -/
def PRNGImpl.InRange (R : PRNGImpl) : Prop :=
  ∀ k lo hi, lo < hi → lo ≤ R.randint k lo hi ∧ R.randint k lo hi < hi

/-- The frozen state of `Permutation` after `__init__`: `length`, multiplier `_a`
and offset `_b`, all plain integers. -/
structure Permutation where
  length : Int
  a : Int
  b : Int
deriving DecidableEq

/-- The `jax.lax.while_loop` of `Permutation.__init__`: state is `(a, key)`; the loop
runs while `gcd(a, length) != 1`, each iteration splitting the key and redrawing
`a` from `[1, length)`.  `fuel` bounds the number of iterations. -/
def resampleA (R : PRNGImpl) (length : Int) : Nat → Int × Nat → Option (Int × Nat)
  | fuel, s =>
    if Int.gcd s.1 length = 1 then some s
    else
      match fuel with
      | 0 => none
      | fuel' + 1 =>
        resampleA R length fuel' (R.randint (R.split s.2).1 1 length, (R.split s.2).2)

/-- `Permutation.__init__(length, prng_key)`: split the key into `(a_key, b_key)`,
draw `a` from `[1, length)` and `b` from `[0, length)`, then resample `a` until
`gcd(a, length) == 1` (while-loop started on state `(a, a_key)`). -/
def Permutation.init (R : PRNGImpl) (fuel : Nat) (length : Int) (prng_key : Nat) :
    Option Permutation :=
  let ks := R.split prng_key
  let a0 := R.randint ks.1 1 length
  let b := R.randint ks.2 0 length
  (resampleA R length fuel (a0, ks.1)).map fun s => ⟨length, s.1, b⟩

/-- Scalar branch of `Permutation.__call__`: bounds-check the index, then return
`(a * index + b) % length` (Python `%` on a positive modulus is Euclidean mod,
matching `Int.emod`). -/
def Permutation.call (p : Permutation) (i : Int) : Except String Int :=
  if i < 0 ∨ p.length ≤ i then
    Except.error "index is out of bounds for length"
  else
    Except.ok ((p.a * i + p.b) % p.length)

/-- Array branch of `Permutation.__call__`: if any element is negative or `≥ length`,
raise `IndexError`; otherwise apply the affine map element-wise. -/
def Permutation.callArray (p : Permutation) (xs : List Int) : Except String (List Int) :=
  if (xs.any fun i => decide (i < 0)) || (xs.any fun i => decide (p.length ≤ i)) then
    Except.error "index is out of bounds for length"
  else
    Except.ok (xs.map fun i => (p.a * i + p.b) % p.length)

/-- A small concrete PRNG used to instantiate theorems on concrete inputs. -/
def midR : PRNGImpl where
  split := fun k => (2 * k + 1, 2 * k + 2)
  randint := fun k lo hi => if lo < hi then lo + (k : Int) % (hi - lo) else lo

/-- The tokenized-text part of one processed record (`input_ids`, `attention_mask`),
as produced by the `BatchTokenizer` collaborator. -/
structure TokOut where
  input_ids : List Int
  attention_mask : List Int
deriving DecidableEq

/-- One `AudioTextDict` record assembled by `BatchAudioProcessor.__call__`:
audio features of type `β` plus the tokenized text. -/
structure AudioText (β : Type) where
  input_features : β
  input_ids : List Int
  attention_mask : List Int
deriving DecidableEq

/-- The debatching loop at the end of `BatchAudioProcessor.__call__`: for each text
feature (enumerated from `i`), pair it with `audio_features["input_features"][i]`;
a missing audio row is Python's `IndexError`. -/
def debatchFrom {β : Type} (af : List β) : Nat → List TokOut → Except String (List (AudioText β))
  | _, [] => Except.ok []
  | i, t :: ts =>
    match af.get? i with
    | none => Except.error "index out of range"
    | some a =>
      match debatchFrom af (i + 1) ts with
      | Except.error e => Except.error e
      | Except.ok rest => Except.ok (⟨a, t.input_ids, t.attention_mask⟩ :: rest)

/-- `BatchAudioProcessor.__call__`: unzip the batch (fails on an empty batch, as
Python's unpacking of `zip(*batch)` does), assert that the set of sampling rates is
a singleton, then run the feature extractor `fe` on the audio at the unique rate, the
batch tokenizer `bt` on the text, and debatch.  `fe` and `bt` model the external
HuggingFace collaborators. -/
def batchAudioProcessorCall {α β : Type} (fe : List α → Int → List β)
    (bt : List String → List TokOut) (batch : List (α × Int × String)) :
    Except String (List (AudioText β)) :=
  match batch with
  | [] => Except.error "not enough values to unpack"
  | _ =>
    let audio_batch := batch.map fun v => v.1
    let sampling_rates := batch.map fun v => v.2.1
    let text_batch := batch.map fun v => v.2.2
    let uniq_sampling_rates := sampling_rates.dedup
    if uniq_sampling_rates.length = 1 then
      debatchFrom (fe audio_batch (uniq_sampling_rates.headD 0)) 0 (bt text_batch)
    else
      Except.error "Sampling rates should be standardized"

/-- Model of the `TreeCache` collaborator as consumed by `ProcessedAudioCache`:
the results of the five dataset methods, recorded as data. -/
structure TreeCacheModel (E : Type) where
  async_len : Nat
  final_length_is_known : Bool
  is_finite : Bool
  current_len : Option Nat
  get_batch : List Nat → Except String (List E)

/-- `ProcessedAudioCache`: a thin wrapper holding the underlying `TreeCache`. -/
structure ProcessedAudioCache (E : Type) where
  cache : TreeCacheModel E

/-- `ProcessedAudioCache.async_len`: `return await self.cache.async_len()`. -/
def ProcessedAudioCache.async_len {E : Type} (d : ProcessedAudioCache E) : Nat :=
  d.cache.async_len

/-- `ProcessedAudioCache.final_length_is_known`: delegates to the wrapped cache. -/
def ProcessedAudioCache.final_length_is_known {E : Type} (d : ProcessedAudioCache E) : Bool :=
  d.cache.final_length_is_known

/-- `ProcessedAudioCache.is_finite`: delegates to the wrapped cache. -/
def ProcessedAudioCache.is_finite {E : Type} (d : ProcessedAudioCache E) : Bool :=
  d.cache.is_finite

/-- `ProcessedAudioCache.current_len`: delegates to the wrapped cache. -/
def ProcessedAudioCache.current_len {E : Type} (d : ProcessedAudioCache E) : Option Nat :=
  d.cache.current_len

/-- `ProcessedAudioCache.get_batch`: `return await self.cache.get_batch(indices)`. -/
def ProcessedAudioCache.get_batch {E : Type} (d : ProcessedAudioCache E) (indices : List Nat) :
    Except String (List E) :=
  d.cache.get_batch indices

/-- What the durable store holds at a directory: no ledger, an unreadable ledger,
or a readable cache. -/
inductive LedgerState (E : Type) where
  | absent
  | corrupt (msg : String)
  | present (cache : TreeCacheModel E)

/-- Errors surfaced by cache loading: Python's `FileNotFoundError` versus any
other exception. -/
inductive LoadError where
  | fileNotFound (msg : String)
  | other (msg : String)
deriving DecidableEq

/-- Modelled from the spec: `TreeCache.load` (the levanter store module is not part
of the provided sources) "fails with a not-found error if no ledger exists at `path`;
fails with a corruption error (propagated, not swallowed) if the ledger is present
but unreadable"; otherwise it opens the durable cache. -/
def treeCacheLoad {E : Type} (fs : String → LedgerState E) (cache_dir : String) :
    Except LoadError (TreeCacheModel E) :=
  match fs cache_dir with
  | LedgerState.absent => Except.error (LoadError.fileNotFound cache_dir)
  | LedgerState.corrupt m => Except.error (LoadError.other m)
  | LedgerState.present c => Except.ok c

/-- `ProcessedAudioCache.load`: try `TreeCache.load`; on success wrap the cache; on
`FileNotFoundError` re-raise with the message `"{cache_dir} is not a complete cache"`;
on any other exception, log and re-raise it unchanged. -/
def ProcessedAudioCache.load {E : Type} (fs : String → LedgerState E) (cache_dir : String) :
    Except LoadError (ProcessedAudioCache E) :=
  match treeCacheLoad fs cache_dir with
  | Except.ok c => Except.ok ⟨c⟩
  | Except.error (LoadError.fileNotFound _) =>
      Except.error (LoadError.fileNotFound (cache_dir ++ " is not a complete cache"))
  | Except.error (LoadError.other m) => Except.error (LoadError.other m)

/-- `ProcessedAudioCache.build_or_load`: construct the batch processor `bp`, call
`build_or_load_cache` (external, passed as the abstract `build_cache`), and wrap the
resulting cache. -/
def ProcessedAudioCache.build_or_load {E S P : Type} (build_cache : String → S → P → TreeCacheModel E)
    (cache_dir : String) (source : S) (bp : P) : ProcessedAudioCache E :=
  ⟨build_cache cache_dir source bp⟩

/-- A concrete store for instantiating the load theorems: one corrupt directory,
everything else absent. -/
def fsMixed : String → LedgerState Unit := fun d =>
  if d = "bad" then LedgerState.corrupt "unreadable ledger" else LedgerState.absent

/-- A concrete cache value for instantiating the delegation theorems. -/
def unitCache : TreeCacheModel Unit where
  async_len := 3
  final_length_is_known := true
  is_finite := true
  current_len := some 3
  get_batch := fun l => Except.ok (l.map fun _ => ())

/-- A concrete store that holds `unitCache` everywhere, for instantiating the
delegation theorem. -/
def fsPresent : String → LedgerState Unit := fun _ => LedgerState.present unitCache

/-- The concrete PRNG `midR` satisfies the `jax.random.randint` range contract. -/
theorem midR_InRange : midR.InRange := by
  intro k lo hi h
  have hpos : 0 < hi - lo := by omega
  constructor
  · simp only [midR, if_pos h]
    have := Int.emod_nonneg (k : Int) (by omega : hi - lo ≠ 0)
    omega
  · simp only [midR, if_pos h]
    have := Int.emod_lt_of_pos (k : Int) hpos
    omega

/-- The while-loop exits immediately (whatever the fuel) once the state already
satisfies the exit condition `gcd(a, length) = 1`. -/
theorem resampleA_exit {R : PRNGImpl} {L : Int} {s : Int × Nat}
    (h : Int.gcd s.1 L = 1) (fuel : Nat) : resampleA R L fuel s = some s := by
  cases fuel <;> (simp only [resampleA]; rw [if_pos h])

theorem resampleA_some {R : PRNGImpl} (hR : R.InRange) {L : Int} (hL : 1 < L) :
    ∀ (fuel : Nat) (s s' : Int × Nat), 1 ≤ s.1 → s.1 < L →
      resampleA R L fuel s = some s' → Int.gcd s'.1 L = 1 ∧ 1 ≤ s'.1 ∧ s'.1 < L := by
  intro fuel
  induction fuel with
  | zero =>
    intro s s' h1 h2 hs
    simp only [resampleA] at hs
    by_cases hg : Int.gcd s.1 L = 1
    · rw [if_pos hg] at hs
      cases hs
      exact ⟨hg, h1, h2⟩
    · rw [if_neg hg] at hs
      exact Option.noConfusion hs
  | succ n ih =>
    intro s s' h1 h2 hs
    simp only [resampleA] at hs
    by_cases hg : Int.gcd s.1 L = 1
    · rw [if_pos hg] at hs
      cases hs
      exact ⟨hg, h1, h2⟩
    · rw [if_neg hg] at hs
      have hr := hR (R.split s.2).1 1 L hL
      exact ih _ s' hr.1 hr.2 hs

/-- Invariants established by `Permutation.__init__` for `length > 1`, stated in
terms of the frozen fields. -/
theorem perm_init_spec {R : PRNGImpl} (hR : R.InRange) {fuel : Nat} {L : Int} {k : Nat}
    {p : Permutation} (hL : 1 < L) (hp : Permutation.init R fuel L k = some p) :
    p.length = L ∧ Int.gcd p.a p.length = 1 ∧ 1 ≤ p.a ∧ p.a < p.length ∧
      0 ≤ p.b ∧ p.b < p.length := by
  simp only [Permutation.init, Option.map_eq_some'] at hp
  obtain ⟨s, hs, rfl⟩ := hp
  have h0 := hR (R.split k).1 1 L hL
  have hres := resampleA_some hR hL fuel _ s h0.1 h0.2 hs
  have hb := hR (R.split k).2 0 L (by omega)
  exact ⟨rfl, hres.1, hres.2.1, hres.2.2, hb.1, hb.2⟩

/-- An index in `[0, length)` passes the bounds check and gets the affine map. -/
theorem call_in_range {p : Permutation} {i : Int} (h0 : 0 ≤ i) (hL : i < p.length) :
    p.call i = Except.ok ((p.a * i + p.b) % p.length) := by
  have hc : ¬(i < 0 ∨ p.length ≤ i) := by omega
  unfold Permutation.call
  rw [if_neg hc]

/-- The affine map `x ↦ (a*x + b) % L` is injective on `[0, L)` when `gcd(a, L) = 1`. -/
theorem affine_inj {L a b i j : Int} (hL : 0 < L) (hg : Int.gcd a L = 1)
    (hi0 : 0 ≤ i) (hiL : i < L) (hj0 : 0 ≤ j) (hjL : j < L)
    (h : (a * i + b) % L = (a * j + b) % L) : i = j := by
  have hm : a * i + b ≡ a * j + b [ZMOD L] := h
  have hm2 : a * i ≡ a * j [ZMOD L] := (Int.ModEq.refl b).add_right_cancel hm
  have hij : i ≡ j [ZMOD L / (Int.gcd L a : Int)] := Int.ModEq.cancel_left_div_gcd hL hm2
  rw [Int.gcd_comm L a, hg] at hij
  have hij' : i ≡ j [ZMOD L] := by simpa using hij
  have heq := hij'.eq
  rwa [Int.emod_eq_of_lt hi0 hiL, Int.emod_eq_of_lt hj0 hjL] at heq

/-- The affine map `x ↦ (a*x + b) % L` is surjective onto `[0, L)` when `gcd(a, L) = 1`. -/
theorem affine_surj {L a b y : Int} (hL : 0 < L) (hg : Int.gcd a L = 1)
    (hy0 : 0 ≤ y) (hyL : y < L) :
    ∃ i, 0 ≤ i ∧ i < L ∧ (a * i + b) % L = y := by
  obtain ⟨u, v, huv⟩ := Int.isCoprime_iff_gcd_eq_one.mpr hg
  refine ⟨(u * (y - b)) % L, Int.emod_nonneg _ (by omega), Int.emod_lt_of_pos _ hL, ?_⟩
  have h1 : (u * (y - b)) % L ≡ u * (y - b) [ZMOD L] := Int.mod_modEq _ _
  have h2 : a * ((u * (y - b)) % L) + b ≡ a * (u * (y - b)) + b [ZMOD L] :=
    (h1.mul_left a).add_right b
  have key : a * (u * (y - b)) + b = y + L * (-(v * (y - b))) := by
    linear_combination (y - b) * huv
  have h3 : a * (u * (y - b)) + b ≡ y [ZMOD L] := by
    rw [key]
    exact Int.modEq_add_fac_self
  have h4 := (h2.trans h3).eq
  rwa [Int.emod_eq_of_lt hy0 hyL] at h4

/-- C4: after `Permutation(length, seed)` returns, for `length > 1` the frozen
multiplier satisfies `gcd(a, length) = 1` and `1 ≤ a < length`, and the offset
satisfies `0 ≤ b < length`; the stored length is the requested one. -/
theorem perm_init_invariants (R : PRNGImpl) (hR : R.InRange) (fuel : Nat) (L : Int) (k : Nat)
    (p : Permutation) (hL : 1 < L) (hp : Permutation.init R fuel L k = some p) :
    p.length = L ∧ Int.gcd p.a L = 1 ∧ 1 ≤ p.a ∧ p.a < L ∧ 0 ≤ p.b ∧ p.b < L := by
  obtain ⟨hlen, hg, ha1, haL, hb0, hbL⟩ := perm_init_spec hR hL hp
  rw [hlen] at hg haL hbL
  exact ⟨hlen, hg, ha1, haL, hb0, hbL⟩

/-- C4 witness: a concrete construction at `length = 10`, seed `0`. -/
theorem perm_init_invariants_witness :
    midR.InRange ∧ (1 : Int) < 10 ∧ Permutation.init midR 5 10 0 = some ⟨10, 1, 2⟩ ∧
    ((⟨10, 1, 2⟩ : Permutation).length = 10 ∧ Int.gcd (⟨10, 1, 2⟩ : Permutation).a 10 = 1 ∧
      1 ≤ (⟨10, 1, 2⟩ : Permutation).a ∧ (⟨10, 1, 2⟩ : Permutation).a < 10 ∧
      0 ≤ (⟨10, 1, 2⟩ : Permutation).b ∧ (⟨10, 1, 2⟩ : Permutation).b < 10) :=
  ⟨midR_InRange, by decide, by decide,
    perm_init_invariants midR midR_InRange 5 10 0 ⟨10, 1, 2⟩ (by decide) (by decide)⟩

/-- C1: for `length > 1`, the constructed permutation is a bijection on
`[0, length)`: `__call__` is injective there and every value in `[0, length)`
is attained. -/
theorem perm_call_bijection (R : PRNGImpl) (hR : R.InRange) (fuel : Nat) (L : Int) (k : Nat)
    (p : Permutation) (hL : 1 < L) (hp : Permutation.init R fuel L k = some p) :
    (∀ i j, 0 ≤ i → i < p.length → 0 ≤ j → j < p.length → p.call i = p.call j → i = j) ∧
    (∀ y, 0 ≤ y → y < p.length → ∃ i, 0 ≤ i ∧ i < p.length ∧ p.call i = Except.ok y) := by
  obtain ⟨hlen, hg, ha1, haL, hb0, hbL⟩ := perm_init_spec hR hL hp
  have hL0 : (0 : Int) < p.length := by rw [hlen]; omega
  constructor
  · intro i j hi0 hiL hj0 hjL hcall
    rw [call_in_range hi0 hiL, call_in_range hj0 hjL] at hcall
    exact affine_inj hL0 hg hi0 hiL hj0 hjL (Except.ok.inj hcall)
  · intro y hy0 hyL
    obtain ⟨i, hi0, hiL, hkey⟩ := affine_surj (b := p.b) hL0 hg hy0 hyL
    exact ⟨i, hi0, hiL, by rw [call_in_range hi0 hiL, hkey]⟩

/-- C1 witness: the permutation built at `length = 10`, seed `4` is a bijection. -/
theorem perm_call_bijection_witness :
    Permutation.init midR 5 10 4 = some ⟨10, 1, 0⟩ ∧
    ((∀ i j, 0 ≤ i → i < (⟨10, 1, 0⟩ : Permutation).length → 0 ≤ j →
        j < (⟨10, 1, 0⟩ : Permutation).length →
        Permutation.call ⟨10, 1, 0⟩ i = Permutation.call ⟨10, 1, 0⟩ j → i = j) ∧
      (∀ y, 0 ≤ y → y < (⟨10, 1, 0⟩ : Permutation).length →
        ∃ i, 0 ≤ i ∧ i < (⟨10, 1, 0⟩ : Permutation).length ∧
          Permutation.call ⟨10, 1, 0⟩ i = Except.ok y)) :=
  ⟨by decide, perm_call_bijection midR midR_InRange 5 10 4 ⟨10, 1, 0⟩ (by decide) (by decide)⟩

/-- C2: on a batch of in-range indices, `__call__` returns the element-wise affine
map `(a * i + b) % length`, preserves the shape (length) of the input, and agrees
with the scalar call on every element. -/
theorem perm_call_array_spec (p : Permutation) (xs : List Int)
    (h : ∀ x ∈ xs, 0 ≤ x ∧ x < p.length) :
    p.callArray xs = Except.ok (xs.map fun i => (p.a * i + p.b) % p.length) ∧
    (∀ ys, p.callArray xs = Except.ok ys → ys.length = xs.length) ∧
    (∀ x ∈ xs, p.call x = Except.ok ((p.a * x + p.b) % p.length)) := by
  have h1 : (xs.any fun i => decide (i < 0)) = false := by
    rw [List.any_eq_false]
    intro x hx
    have := h x hx
    simp only [decide_eq_true_eq]
    omega
  have h2 : (xs.any fun i => decide (p.length ≤ i)) = false := by
    rw [List.any_eq_false]
    intro x hx
    have := h x hx
    simp only [decide_eq_true_eq]
    omega
  have harr : p.callArray xs = Except.ok (xs.map fun i => (p.a * i + p.b) % p.length) := by
    unfold Permutation.callArray
    rw [h1, h2]
    rfl
  refine ⟨harr, ?_, ?_⟩
  · intro ys hys
    rw [harr] at hys
    have := Except.ok.inj hys
    rw [← this, List.length_map]
  · intro x hx
    exact call_in_range (h x hx).1 (h x hx).2

/-- C2 witness: a concrete in-range batch at the permutation `(10, 3, 7)`. -/
theorem perm_call_array_spec_witness :
    (∀ x ∈ ([0, 5, 9] : List Int), 0 ≤ x ∧ x < (⟨10, 3, 7⟩ : Permutation).length) ∧
    (Permutation.callArray ⟨10, 3, 7⟩ [0, 5, 9] =
        Except.ok (([0, 5, 9] : List Int).map fun i => (3 * i + 7) % 10) ∧
      (∀ ys, Permutation.callArray ⟨10, 3, 7⟩ [0, 5, 9] = Except.ok ys →
        ys.length = ([0, 5, 9] : List Int).length) ∧
      (∀ x ∈ ([0, 5, 9] : List Int),
        Permutation.call ⟨10, 3, 7⟩ x = Except.ok ((3 * x + 7) % 10))) :=
  ⟨by decide, perm_call_array_spec ⟨10, 3, 7⟩ [0, 5, 9] (by decide)⟩

/-- C3: a scalar index outside `[0, length)`, or a batch containing an element
outside `[0, length)`, makes `__call__` raise `IndexError` instead of returning a
wrapped value. -/
theorem perm_call_out_of_range (p : Permutation) (i : Int) (xs : List Int) (x : Int)
    (hi : i < 0 ∨ p.length ≤ i) (hx : x ∈ xs) (hxout : x < 0 ∨ p.length ≤ x) :
    p.call i = Except.error "index is out of bounds for length" ∧
    p.callArray xs = Except.error "index is out of bounds for length" := by
  constructor
  · unfold Permutation.call
    rw [if_pos hi]
  · unfold Permutation.callArray
    rw [if_pos]
    simp only [Bool.or_eq_true, List.any_eq_true, decide_eq_true_eq]
    rcases hxout with hc | hc
    · exact Or.inl ⟨x, hx, hc⟩
    · exact Or.inr ⟨x, hx, hc⟩

/-- C3 witness: scalar `-1` and batch `[3, 12]` against length `10`. -/
theorem perm_call_out_of_range_witness :
    ((-1 : Int) < 0 ∨ (⟨10, 3, 7⟩ : Permutation).length ≤ -1) ∧
    (12 : Int) ∈ ([3, 12] : List Int) ∧
    ((12 : Int) < 0 ∨ (⟨10, 3, 7⟩ : Permutation).length ≤ 12) ∧
    (Permutation.call ⟨10, 3, 7⟩ (-1) = Except.error "index is out of bounds for length" ∧
      Permutation.callArray ⟨10, 3, 7⟩ [3, 12] =
        Except.error "index is out of bounds for length") :=
  ⟨by decide, by decide, by decide,
    perm_call_out_of_range ⟨10, 3, 7⟩ (-1) [3, 12] 12 (by decide) (by decide) (by decide)⟩

/-- C6: at `length = 1` construction returns without consuming the loop at all
(any fuel, including zero, suffices), and the permutation maps `0` to `0`. -/
theorem perm_length_one (R : PRNGImpl) (fuel : Nat) (k : Nat) :
    ∃ p, Permutation.init R fuel 1 k = some p ∧ p.call 0 = Except.ok 0 := by
  refine ⟨⟨1, R.randint (R.split k).1 1 1, R.randint (R.split k).2 0 1⟩, ?_, ?_⟩
  · have hg : Int.gcd (R.randint (R.split k).1 1 1) 1 = 1 := by simp [Int.gcd]
    simp only [Permutation.init]
    rw [resampleA_exit hg]
    rfl
  · show Permutation.call ⟨1, _, _⟩ 0 = Except.ok 0
    unfold Permutation.call
    rw [if_neg (by simp)]
    simp [Int.emod_one]

/-- C7: construction and application are deterministic: two permutations built
from the same `(length, seed)` are equal and agree on every index. -/
theorem perm_deterministic (R : PRNGImpl) (fuel : Nat) (L : Int) (k : Nat)
    (p q : Permutation) (hp : Permutation.init R fuel L k = some p)
    (hq : Permutation.init R fuel L k = some q) :
    p = q ∧ ∀ i, p.call i = q.call i := by
  obtain rfl := Option.some.inj (hp.symm.trans hq)
  exact ⟨rfl, fun _ => rfl⟩

/-- C7 witness: two constructions at `(10, seed 4)` coincide. -/
theorem perm_deterministic_witness :
    Permutation.init midR 5 10 4 = some ⟨10, 1, 0⟩ ∧
    ((⟨10, 1, 0⟩ : Permutation) = ⟨10, 1, 0⟩ ∧
      ∀ i, Permutation.call ⟨10, 1, 0⟩ i = Permutation.call ⟨10, 1, 0⟩ i) :=
  ⟨by decide,
    perm_deterministic midR 5 10 4 ⟨10, 1, 0⟩ ⟨10, 1, 0⟩ (by decide) (by decide)⟩

/-- A list whose elements are all equal to `c` is empty or dedups to `[c]`
(Python: `set(l)` is the singleton `{c}`). -/
theorem dedup_const {c : Int} : ∀ l : List Int, (∀ x ∈ l, x = c) → l = [] ∨ l.dedup = [c]
  | [], _ => Or.inl rfl
  | a :: t, h => by
    have ha : a = c := h a (List.mem_cons_self a t)
    rcases dedup_const t (fun x hx => h x (List.mem_cons_of_mem a hx)) with ht | ht
    · subst ht
      right
      rw [List.dedup_cons_of_not_mem (by simp), List.dedup_nil, ha]
    · right
      have hct : c ∈ t := List.mem_dedup.mp (by rw [ht]; exact List.mem_singleton_self c)
      rw [List.dedup_cons_of_mem (by rwa [ha])]
      exact ht

/-- A list holding two distinct values dedups to length ≠ 1 (Python: `len(set(l)) != 1`). -/
theorem dedup_length_ne_one {l : List Int} {x y : Int} (hx : x ∈ l) (hy : y ∈ l)
    (hxy : x ≠ y) : l.dedup.length ≠ 1 := by
  intro h1
  obtain ⟨c, hc⟩ := List.length_eq_one.mp h1
  have hx' : x ∈ l.dedup := List.mem_dedup.mpr hx
  have hy' : y ∈ l.dedup := List.mem_dedup.mpr hy
  rw [hc, List.mem_singleton] at hx' hy'
  exact hxy (hx'.trans hy'.symm)

/-- C10: `BatchAudioProcessor.__call__` requires a uniform sampling rate: a
non-empty batch holding two different rates fails the assertion (whatever the
feature extractor and tokenizer do), and a uniform-rate batch passes it and
proceeds to feature extraction and debatching. -/
theorem batch_audio_rate_assert {α β : Type} (fe : List α → Int → List β)
    (bt : List String → List TokOut) (batch : List (α × Int × String))
    (hne : batch ≠ []) :
    (∀ x ∈ batch, ∀ y ∈ batch, x.2.1 ≠ y.2.1 →
      batchAudioProcessorCall fe bt batch =
        Except.error "Sampling rates should be standardized") ∧
    ((∀ x ∈ batch, ∀ y ∈ batch, x.2.1 = y.2.1) →
      batchAudioProcessorCall fe bt batch =
        debatchFrom (fe (batch.map fun v => v.1) (((batch.map fun v => v.2.1).dedup).headD 0))
          0 (bt (batch.map fun v => v.2.2))) := by
  obtain ⟨hd, tl, rfl⟩ : ∃ hd tl, batch = hd :: tl := by
    cases batch with
    | nil => exact absurd rfl hne
    | cons hd tl => exact ⟨hd, tl, rfl⟩
  constructor
  · intro x hx y hy hxy
    have hlen : ((hd :: tl).map fun v => v.2.1).dedup.length ≠ 1 :=
      dedup_length_ne_one (List.mem_map_of_mem _ hx) (List.mem_map_of_mem _ hy) hxy
    simp only [batchAudioProcessorCall]
    rw [if_neg hlen]
  · intro hall
    have hconst : ∀ r ∈ (hd :: tl).map fun v => v.2.1, r = hd.2.1 := by
      intro r hr
      obtain ⟨v, hv, rfl⟩ := List.mem_map.mp hr
      exact hall v hv hd (List.mem_cons_self hd tl)
    rcases dedup_const _ hconst with hemp | hded
    · exact absurd hemp (by simp)
    · have hlen : ((hd :: tl).map fun v => v.2.1).dedup.length = 1 := by rw [hded]; rfl
      simp only [batchAudioProcessorCall]
      rw [if_pos hlen]

/-- C10 witness: a mixed-rate batch errors; a uniform-rate batch reaches debatching. -/
theorem batch_audio_rate_assert_witness :
    ([((), (16 : Int), "x"), ((), 16, "y")] : List (Unit × Int × String)) ≠ [] ∧
    ((∀ x ∈ ([((), (16 : Int), "x"), ((), 16, "y")] : List (Unit × Int × String)),
        ∀ y ∈ ([((), (16 : Int), "x"), ((), 16, "y")] : List (Unit × Int × String)),
        x.2.1 ≠ y.2.1 →
        batchAudioProcessorCall (fun _ _ => ([] : List Unit)) (fun _ => [])
            [((), 16, "x"), ((), 16, "y")] =
          Except.error "Sampling rates should be standardized") ∧
      ((∀ x ∈ ([((), (16 : Int), "x"), ((), 16, "y")] : List (Unit × Int × String)),
          ∀ y ∈ ([((), (16 : Int), "x"), ((), 16, "y")] : List (Unit × Int × String)),
          x.2.1 = y.2.1) →
        batchAudioProcessorCall (fun _ _ => ([] : List Unit)) (fun _ => [])
            [((), 16, "x"), ((), 16, "y")] =
          debatchFrom
            ((fun _ _ => ([] : List Unit))
              (([((), (16 : Int), "x"), ((), 16, "y")] :
                List (Unit × Int × String)).map fun v => v.1)
              ((([((), (16 : Int), "x"), ((), 16, "y")] :
                List (Unit × Int × String)).map fun v => v.2.1).dedup.headD 0))
            0 ((fun _ => ([] : List TokOut))
              (([((), (16 : Int), "x"), ((), 16, "y")] :
                List (Unit × Int × String)).map fun v => v.2.2)))) :=
  ⟨by simp,
    batch_audio_rate_assert (fun _ _ => ([] : List Unit)) (fun _ => [])
      [((), 16, "x"), ((), 16, "y")] (by simp)⟩

/-- C8: `ProcessedAudioCache.load` surfaces `FileNotFoundError` when no ledger
exists (and constructs no cache object), and propagates any other loading
exception unchanged. -/
theorem processed_audio_cache_load_spec {E : Type} (fs : String → LedgerState E)
    (dir : String) :
    (fs dir = LedgerState.absent →
      ProcessedAudioCache.load fs dir =
          Except.error (LoadError.fileNotFound (dir ++ " is not a complete cache")) ∧
        ∀ c, ProcessedAudioCache.load fs dir ≠ Except.ok c) ∧
    (∀ m, fs dir = LedgerState.corrupt m →
      ProcessedAudioCache.load fs dir = Except.error (LoadError.other m)) := by
  constructor
  · intro h
    unfold ProcessedAudioCache.load treeCacheLoad
    rw [h]
    exact ⟨rfl, fun c hc => Except.noConfusion hc⟩
  · intro m h
    unfold ProcessedAudioCache.load treeCacheLoad
    rw [h]

/-- C8 witness: an absent directory and a corrupt directory in the store `fsMixed`. -/
theorem processed_audio_cache_load_spec_witness :
    fsMixed "nowhere" = LedgerState.absent ∧
    (ProcessedAudioCache.load fsMixed "nowhere" =
        Except.error (LoadError.fileNotFound "nowhere is not a complete cache") ∧
      ∀ c, ProcessedAudioCache.load fsMixed "nowhere" ≠ Except.ok c) ∧
    fsMixed "bad" = LedgerState.corrupt "unreadable ledger" ∧
    ProcessedAudioCache.load fsMixed "bad" =
      Except.error (LoadError.other "unreadable ledger") :=
  ⟨by simp [fsMixed], (processed_audio_cache_load_spec fsMixed "nowhere").1 (by simp [fsMixed]),
    by simp [fsMixed],
    (processed_audio_cache_load_spec fsMixed "bad").2 "unreadable ledger" (by simp [fsMixed])⟩

/-- C9: `ProcessedAudioCache` is pure delegation: each dataset method returns
exactly the wrapped cache's result, `build_or_load` wraps the cache produced by
`build_or_load_cache`, and a successful `load` wraps the cache returned by
`TreeCache.load`. -/
theorem processed_audio_cache_delegates {E S P : Type} (c : TreeCacheModel E)
    (indices : List Nat) (build_cache : String → S → P → TreeCacheModel E)
    (cache_dir : String) (source : S) (bp : P) (fs : String → LedgerState E)
    (c' : TreeCacheModel E) (hload : treeCacheLoad fs cache_dir = Except.ok c') :
    (ProcessedAudioCache.mk c).async_len = c.async_len ∧
    (ProcessedAudioCache.mk c).final_length_is_known = c.final_length_is_known ∧
    (ProcessedAudioCache.mk c).is_finite = c.is_finite ∧
    (ProcessedAudioCache.mk c).current_len = c.current_len ∧
    (ProcessedAudioCache.mk c).get_batch indices = c.get_batch indices ∧
    (ProcessedAudioCache.build_or_load build_cache cache_dir source bp).cache =
      build_cache cache_dir source bp ∧
    ProcessedAudioCache.load fs cache_dir = Except.ok (ProcessedAudioCache.mk c') := by
  refine ⟨rfl, rfl, rfl, rfl, rfl, rfl, ?_⟩
  unfold ProcessedAudioCache.load
  rw [hload]

/-- C9 witness: delegation at the concrete cache `unitCache` and store `fsPresent`. -/
theorem processed_audio_cache_delegates_witness :
    treeCacheLoad fsPresent "dir" = Except.ok unitCache ∧
    ((ProcessedAudioCache.mk unitCache).async_len = unitCache.async_len ∧
      (ProcessedAudioCache.mk unitCache).final_length_is_known =
        unitCache.final_length_is_known ∧
      (ProcessedAudioCache.mk unitCache).is_finite = unitCache.is_finite ∧
      (ProcessedAudioCache.mk unitCache).current_len = unitCache.current_len ∧
      (ProcessedAudioCache.mk unitCache).get_batch [0, 1] = unitCache.get_batch [0, 1] ∧
      (ProcessedAudioCache.build_or_load (fun _ _ _ => unitCache) "dir" () ()).cache =
        (fun _ _ _ => unitCache) "dir" () () ∧
      ProcessedAudioCache.load fsPresent "dir" =
        Except.ok (ProcessedAudioCache.mk unitCache)) :=
  ⟨rfl,
    processed_audio_cache_delegates unitCache [0, 1] (fun _ _ _ => unitCache) "dir" () ()
      fsPresent unitCache rfl⟩

end Levanter
